import Mathlib

/-!
Shallow embedding of the S-DES implementation in `src/o.py` (class `SDES`).

Bits are modelled as `Nat` (the Python code stores the ints `0`/`1` in
lists).  Python list indexing `xs[i]` may receive a negative index (it then
counts from the end) and raises `IndexError` when out of range; this is
modelled by the `Option`-valued `pyGet`.  Every method of the Python class
becomes an `Option`-valued function, `none` standing for a raised
exception.  The fixed tables stored on the instance in `__init__` are
process-wide constants (they never depend on the key), so they are plain
definitions here; the per-instance data (`key`, `K1`, `K2`) is the
structure `SDES`.
-/

/-- Per-instance state of the Python class `SDES`: the 10-bit master key
and the two derived subkeys computed by `__init__`. -/
structure SDES where
  key : List Nat
  K1 : List Nat
  K2 : List Nat

namespace SDES

/-- Python list indexing `xs[i]`: a nonnegative index reads from the
front, a negative index `i` reads `xs[len + i]`, and any index outside
`[-len, len)` raises `IndexError` (modelled as `none`). -/
def pyGet {α : Type} (xs : List α) (i : Int) : Option α :=
  if 0 ≤ i then xs[i.toNat]?
  else if Int.toNat (-i) ≤ xs.length then xs[xs.length - Int.toNat (-i)]? else none

/-- Table `P10` from `__init__`. -/
def P10 : List Int := [3, 5, 2, 7, 4, 10, 1, 9, 8, 6]

/-- Table `P8` from `__init__`. -/
def P8 : List Int := [6, 3, 7, 4, 8, 5, 10, 9]

/-- Table `IP` (initial permutation) from `__init__`. -/
def IP : List Int := [2, 6, 3, 1, 4, 8, 5, 7]

/-- Table `IP_INV` (final permutation) from `__init__`. -/
def IP_INV : List Int := [4, 1, 3, 5, 7, 2, 8, 6]

/-- Table `EP` (expansion permutation) from `__init__`. -/
def EP : List Int := [4, 1, 2, 3, 2, 3, 4, 1]

/-- Table `P4` from `__init__`. -/
def P4 : List Int := [2, 4, 3, 1]

/-- S-box `S0` from `__init__`. -/
def S0 : List (List Nat) := [[1, 0, 3, 2], [3, 2, 1, 0], [0, 2, 1, 3], [3, 1, 3, 2]]

/-- S-box `S1` from `__init__`. -/
def S1 : List (List Nat) := [[0, 1, 2, 3], [2, 0, 1, 3], [3, 0, 1, 0], [2, 1, 0, 3]]

/-- Method `permute`: `[sequence[i-1] for i in table]`, with Python
indexing semantics for each entry. -/
def permute (sequence : List Nat) (table : List Int) : Option (List Nat) :=
  table.mapM (fun i => pyGet sequence (i - 1))

/-- Method `left_shift`: `half[shifts:] + half[:shifts]` (Python slices
clamp, exactly like `List.drop`/`List.take`). -/
def left_shift (half : List Nat) (shifts : Nat) : List Nat :=
  List.drop shifts half ++ List.take shifts half

/-- Method `generate_keys`: P10, split into halves, rotate by 1, P8 gives
K1, rotate the already-rotated halves by 2 more, P8 gives K2. -/
def generate_keys (key : List Nat) : Option (List Nat × List Nat) := do
  let k ← permute key P10
  let left := List.take 5 k
  let right := List.drop 5 k
  let left1 := left_shift left 1
  let right1 := left_shift right 1
  let K1 ← permute (left1 ++ right1) P8
  let left2 := left_shift left1 2
  let right2 := left_shift right1 2
  let K2 ← permute (left2 ++ right2) P8
  pure (K1, K2)

/-- Binary digits of `v`, most significant first (empty for `0`); the
first argument is structural fuel, always called with `fuel = v ≥ v`. -/
def natBitsGo : Nat → Nat → List Nat
  | _, 0 => []
  | 0, _ + 1 => []
  | fuel + 1, v + 1 => natBitsGo fuel ((v + 1) / 2) ++ [(v + 1) % 2]

/-- Binary digits of `v`, most significant first; `natBits 0 = []`. -/
def natBits (v : Nat) : List Nat := natBitsGo v v

/-- Python `[int(x) for x in f"{value:02b}"]`: the binary digits of
`value`, zero-padded on the left to width at least 2. -/
def pyBin2 (v : Nat) : List Nat :=
  List.replicate (2 - (natBits v).length) 0 ++ natBits v

/-- Method `sbox`: row from the outer bits, column from the inner bits,
table lookup, then the 2-bit (minimum) binary rendering of the value. -/
def sbox (half : List Nat) (box : List (List Nat)) : Option (List Nat) := do
  let h0 ← pyGet half 0
  let h3 ← pyGet half 3
  let row := (h0 <<< 1) + h3
  let h1 ← pyGet half 1
  let h2 ← pyGet half 2
  let col := (h1 <<< 1) + h2
  let rowList ← pyGet box (row : Int)
  let value ← pyGet rowList (col : Int)
  pure (pyBin2 value)

/-- The comprehension `[xs[i] ^ bit for i, bit in enumerate(ys)]` used in
`encrypt`/`decrypt`: one output bit per element of `ys`. -/
def xorIdx (xs ys : List Nat) : Option (List Nat) :=
  ys.enum.mapM (fun p => do
    let a ← pyGet xs (p.1 : Int)
    pure (a ^^^ p.2))

/-- Method `feistel`: EP expansion, XOR with the subkey over `range(8)`,
S-boxes on the two halves, then P4. -/
def feistel (half subkey : List Nat) : Option (List Nat) := do
  let expanded ← permute half EP
  let xorResult ← (List.range 8).mapM (fun i => do
    let a ← pyGet expanded (i : Int)
    let b ← pyGet subkey (i : Int)
    pure (a ^^^ b))
  let left := List.take 4 xorResult
  let right := List.drop 4 xorResult
  let s0out ← sbox left S0
  let s1out ← sbox right S1
  permute (s0out ++ s1out) P4

/-- The constructor `__init__`: stores the key and the two subkeys
returned by `generate_keys`. -/
def make (key : List Nat) : Option SDES := do
  let ks ← generate_keys key
  pure ⟨key, ks.1, ks.2⟩

/-- Method `encrypt`: IP, round 1 with K1 and the swap implemented by the
`temp` variable dance, round 2 with K2 without swap, then IP_INV. -/
def encrypt (s : SDES) (plaintext : List Nat) : Option (List Nat) := do
  let data ← permute plaintext IP
  let left := List.take 4 data
  let right := List.drop 4 data
  let temp := right
  let f1 ← feistel right s.K1
  let left ← xorIdx left f1
  let right := left
  let left := temp
  let f2 ← feistel right s.K2
  let left ← xorIdx left f2
  permute (left ++ right) IP_INV

/-- Method `decrypt`: identical to `encrypt` but using K2 in round 1 and
K1 in round 2. -/
def decrypt (s : SDES) (ciphertext : List Nat) : Option (List Nat) := do
  let data ← permute ciphertext IP
  let left := List.take 4 data
  let right := List.drop 4 data
  let temp := right
  let f1 ← feistel right s.K2
  let left ← xorIdx left f1
  let right := left
  let left := temp
  let f2 ← feistel right s.K1
  let left ← xorIdx left f2
  permute (left ++ right) IP_INV

end SDES

namespace SDES

lemma bit_cases {a : Nat} (h : a ≤ 1) : a = 0 ∨ a = 1 := by omega

lemma xor_bit {a b : Nat} (ha : a ≤ 1) (hb : b ≤ 1) : a ^^^ b ≤ 1 := by
  rcases bit_cases ha with rfl | rfl <;> rcases bit_cases hb with rfl | rfl <;> decide

lemma sbox_S0_wf {a b c d : Nat} (ha : a ≤ 1) (hb : b ≤ 1) (hc : c ≤ 1) (hd : d ≤ 1) :
    ∃ u v, sbox [a, b, c, d] S0 = some [u, v] ∧ u ≤ 1 ∧ v ≤ 1 := by
  rcases bit_cases ha with rfl | rfl <;> rcases bit_cases hb with rfl | rfl <;>
    rcases bit_cases hc with rfl | rfl <;> rcases bit_cases hd with rfl | rfl <;>
    exact ⟨_, _, rfl, by decide, by decide⟩

lemma sbox_S1_wf {a b c d : Nat} (ha : a ≤ 1) (hb : b ≤ 1) (hc : c ≤ 1) (hd : d ≤ 1) :
    ∃ u v, sbox [a, b, c, d] S1 = some [u, v] ∧ u ≤ 1 ∧ v ≤ 1 := by
  rcases bit_cases ha with rfl | rfl <;> rcases bit_cases hb with rfl | rfl <;>
    rcases bit_cases hc with rfl | rfl <;> rcases bit_cases hd with rfl | rfl <;>
    exact ⟨_, _, rfl, by decide, by decide⟩

lemma feistel_wf {w x y z s1 s2 s3 s4 s5 s6 s7 s8 : Nat}
    (hw : w ≤ 1) (hx : x ≤ 1) (hy : y ≤ 1) (hz : z ≤ 1)
    (h1 : s1 ≤ 1) (h2 : s2 ≤ 1) (h3 : s3 ≤ 1) (h4 : s4 ≤ 1)
    (h5 : s5 ≤ 1) (h6 : s6 ≤ 1) (h7 : s7 ≤ 1) (h8 : s8 ≤ 1) :
    ∃ o1 o2 o3 o4, feistel [w, x, y, z] [s1, s2, s3, s4, s5, s6, s7, s8] = some [o1, o2, o3, o4] ∧
      o1 ≤ 1 ∧ o2 ≤ 1 ∧ o3 ≤ 1 ∧ o4 ≤ 1 := by
  obtain ⟨u1, u2, hS0, hu1, hu2⟩ :=
    sbox_S0_wf (xor_bit hz h1) (xor_bit hw h2) (xor_bit hx h3) (xor_bit hy h4)
  obtain ⟨v1, v2, hS1, hv1, hv2⟩ :=
    sbox_S1_wf (xor_bit hx h5) (xor_bit hy h6) (xor_bit hz h7) (xor_bit hw h8)
  refine ⟨u2, v2, v1, u1, ?_, hu2, hv2, hv1, hu1⟩
  show (sbox [z ^^^ s1, w ^^^ s2, x ^^^ s3, y ^^^ s4] S0).bind (fun a =>
      (sbox [x ^^^ s5, y ^^^ s6, z ^^^ s7, w ^^^ s8] S1).bind (fun b =>
        permute (a ++ b) P4)) = some [u2, v2, v1, u1]
  rw [hS0, hS1]
  rfl

lemma encrypt_eval (s : SDES) (p1 p2 p3 p4 p5 p6 p7 p8 u1 u2 u3 u4 v1 v2 v3 v4 : Nat)
    (hF1 : feistel [p4, p8, p5, p7] s.K1 = some [u1, u2, u3, u4])
    (hF2 : feistel [p2 ^^^ u1, p6 ^^^ u2, p3 ^^^ u3, p1 ^^^ u4] s.K2 = some [v1, v2, v3, v4]) :
    encrypt s [p1, p2, p3, p4, p5, p6, p7, p8] =
      some [p7 ^^^ v4, p4 ^^^ v1, p5 ^^^ v3, p2 ^^^ u1, p3 ^^^ u3, p8 ^^^ v2, p1 ^^^ u4, p6 ^^^ u2] := by
  show (feistel [p4, p8, p5, p7] s.K1).bind (fun f1 =>
      (xorIdx [p2, p6, p3, p1] f1).bind (fun L1 =>
        (feistel L1 s.K2).bind (fun f2 =>
          (xorIdx [p4, p8, p5, p7] f2).bind (fun nl =>
            permute (nl ++ L1) IP_INV)))) = _
  rw [hF1, Option.some_bind]
  rw [show xorIdx [p2, p6, p3, p1] [u1, u2, u3, u4] =
    some [p2 ^^^ u1, p6 ^^^ u2, p3 ^^^ u3, p1 ^^^ u4] from rfl, Option.some_bind]
  rw [hF2, Option.some_bind]
  rfl

end SDES

namespace SDES

lemma decrypt_eval (s : SDES) (c1 c2 c3 c4 c5 c6 c7 c8 w1 w2 w3 w4 x1 x2 x3 x4 : Nat)
    (hFa : feistel [c4, c8, c5, c7] s.K2 = some [w1, w2, w3, w4])
    (hFb : feistel [c2 ^^^ w1, c6 ^^^ w2, c3 ^^^ w3, c1 ^^^ w4] s.K1 = some [x1, x2, x3, x4]) :
    decrypt s [c1, c2, c3, c4, c5, c6, c7, c8] =
      some [c7 ^^^ x4, c4 ^^^ x1, c5 ^^^ x3, c2 ^^^ w1, c3 ^^^ w3, c8 ^^^ x2, c1 ^^^ w4, c6 ^^^ w2] := by
  show (feistel [c4, c8, c5, c7] s.K2).bind (fun f1 =>
      (xorIdx [c2, c6, c3, c1] f1).bind (fun L1 =>
        (feistel L1 s.K1).bind (fun f2 =>
          (xorIdx [c4, c8, c5, c7] f2).bind (fun nl =>
            permute (nl ++ L1) IP_INV)))) = _
  rw [hFa, Option.some_bind]
  rw [show xorIdx [c2, c6, c3, c1] [w1, w2, w3, w4] =
    some [c2 ^^^ w1, c6 ^^^ w2, c3 ^^^ w3, c1 ^^^ w4] from rfl, Option.some_bind]
  rw [hFb, Option.some_bind]
  rfl

lemma list_eight {l : List Nat} (h : l.length = 8) :
    ∃ b1 b2 b3 b4 b5 b6 b7 b8, l = [b1, b2, b3, b4, b5, b6, b7, b8] := by
  rcases l with _ | ⟨b1, _ | ⟨b2, _ | ⟨b3, _ | ⟨b4, _ | ⟨b5, _ | ⟨b6, _ | ⟨b7, _ | ⟨b8, _ | ⟨b9, t⟩⟩⟩⟩⟩⟩⟩⟩⟩ <;>
    simp_all

lemma list_ten {l : List Nat} (h : l.length = 10) :
    ∃ b1 b2 b3 b4 b5 b6 b7 b8 b9 b10,
      l = [b1, b2, b3, b4, b5, b6, b7, b8, b9, b10] := by
  rcases l with _ | ⟨b1, _ | ⟨b2, _ | ⟨b3, _ | ⟨b4, _ | ⟨b5, _ | ⟨b6, _ | ⟨b7, _ | ⟨b8, _ | ⟨b9, _ | ⟨b10, _ | ⟨b11, t⟩⟩⟩⟩⟩⟩⟩⟩⟩⟩⟩ <;>
    simp_all

lemma make_eval (k1 k2 k3 k4 k5 k6 k7 k8 k9 k10 : Nat) :
    make [k1, k2, k3, k4, k5, k6, k7, k8, k9, k10] =
      some ⟨[k1, k2, k3, k4, k5, k6, k7, k8, k9, k10],
        [k1, k7, k9, k4, k8, k3, k10, k6], [k8, k3, k6, k5, k10, k2, k9, k1]⟩ := rfl

end SDES

namespace SDES

lemma enc_dec_core (s : SDES) (a1 a2 a3 a4 a5 a6 a7 a8 b1 b2 b3 b4 b5 b6 b7 b8 : Nat)
    (hK1 : s.K1 = [a1, a2, a3, a4, a5, a6, a7, a8])
    (hK2 : s.K2 = [b1, b2, b3, b4, b5, b6, b7, b8])
    (ha1 : a1 ≤ 1) (ha2 : a2 ≤ 1) (ha3 : a3 ≤ 1) (ha4 : a4 ≤ 1)
    (ha5 : a5 ≤ 1) (ha6 : a6 ≤ 1) (ha7 : a7 ≤ 1) (ha8 : a8 ≤ 1)
    (hb1 : b1 ≤ 1) (hb2 : b2 ≤ 1) (hb3 : b3 ≤ 1) (hb4 : b4 ≤ 1)
    (hb5 : b5 ≤ 1) (hb6 : b6 ≤ 1) (hb7 : b7 ≤ 1) (hb8 : b8 ≤ 1)
    (p1 p2 p3 p4 p5 p6 p7 p8 : Nat)
    (hp1 : p1 ≤ 1) (hp2 : p2 ≤ 1) (hp3 : p3 ≤ 1) (hp4 : p4 ≤ 1)
    (hp5 : p5 ≤ 1) (hp6 : p6 ≤ 1) (hp7 : p7 ≤ 1) (hp8 : p8 ≤ 1) :
    ∃ ct, encrypt s [p1, p2, p3, p4, p5, p6, p7, p8] = some ct ∧
      ct.length = 8 ∧ (∀ b ∈ ct, b ≤ 1) ∧
      decrypt s ct = some [p1, p2, p3, p4, p5, p6, p7, p8] := by
  obtain ⟨u1, u2, u3, u4, hF1, hu1, hu2, hu3, hu4⟩ :=
    feistel_wf hp4 hp8 hp5 hp7 ha1 ha2 ha3 ha4 ha5 ha6 ha7 ha8
  obtain ⟨v1, v2, v3, v4, hF2, hv1, hv2, hv3, hv4⟩ :=
    feistel_wf (xor_bit hp2 hu1) (xor_bit hp6 hu2) (xor_bit hp3 hu3) (xor_bit hp1 hu4)
      hb1 hb2 hb3 hb4 hb5 hb6 hb7 hb8
  have hF1' : feistel [p4, p8, p5, p7] s.K1 = some [u1, u2, u3, u4] := by rw [hK1]; exact hF1
  have hF2' : feistel [p2 ^^^ u1, p6 ^^^ u2, p3 ^^^ u3, p1 ^^^ u4] s.K2 =
      some [v1, v2, v3, v4] := by rw [hK2]; exact hF2
  have henc := encrypt_eval s p1 p2 p3 p4 p5 p6 p7 p8 u1 u2 u3 u4 v1 v2 v3 v4 hF1' hF2'
  refine ⟨_, henc, rfl, ?_, ?_⟩
  · intro b hb
    simp only [List.mem_cons, List.not_mem_nil, or_false] at hb
    rcases hb with rfl | rfl | rfl | rfl | rfl | rfl | rfl | rfl
    · exact xor_bit hp7 hv4
    · exact xor_bit hp4 hv1
    · exact xor_bit hp5 hv3
    · exact xor_bit hp2 hu1
    · exact xor_bit hp3 hu3
    · exact xor_bit hp8 hv2
    · exact xor_bit hp1 hu4
    · exact xor_bit hp6 hu2
  · have hFa : feistel [p2 ^^^ u1, p6 ^^^ u2, p3 ^^^ u3, p1 ^^^ u4] s.K2 =
        some [v1, v2, v3, v4] := hF2'
    have hFb : feistel [(p4 ^^^ v1) ^^^ v1, (p8 ^^^ v2) ^^^ v2, (p5 ^^^ v3) ^^^ v3,
        (p7 ^^^ v4) ^^^ v4] s.K1 = some [u1, u2, u3, u4] := by
      simp only [Nat.xor_cancel_right]
      exact hF1'
    have hdec := decrypt_eval s (p7 ^^^ v4) (p4 ^^^ v1) (p5 ^^^ v3) (p2 ^^^ u1) (p3 ^^^ u3)
      (p8 ^^^ v2) (p1 ^^^ u4) (p6 ^^^ u2) v1 v2 v3 v4 u1 u2 u3 u4 hFa hFb
    rw [hdec]
    simp only [Nat.xor_cancel_right]

end SDES

namespace SDES

lemma dec_enc_core (s : SDES) (a1 a2 a3 a4 a5 a6 a7 a8 b1 b2 b3 b4 b5 b6 b7 b8 : Nat)
    (hK1 : s.K1 = [a1, a2, a3, a4, a5, a6, a7, a8])
    (hK2 : s.K2 = [b1, b2, b3, b4, b5, b6, b7, b8])
    (ha1 : a1 ≤ 1) (ha2 : a2 ≤ 1) (ha3 : a3 ≤ 1) (ha4 : a4 ≤ 1)
    (ha5 : a5 ≤ 1) (ha6 : a6 ≤ 1) (ha7 : a7 ≤ 1) (ha8 : a8 ≤ 1)
    (hb1 : b1 ≤ 1) (hb2 : b2 ≤ 1) (hb3 : b3 ≤ 1) (hb4 : b4 ≤ 1)
    (hb5 : b5 ≤ 1) (hb6 : b6 ≤ 1) (hb7 : b7 ≤ 1) (hb8 : b8 ≤ 1)
    (c1 c2 c3 c4 c5 c6 c7 c8 : Nat)
    (hc1 : c1 ≤ 1) (hc2 : c2 ≤ 1) (hc3 : c3 ≤ 1) (hc4 : c4 ≤ 1)
    (hc5 : c5 ≤ 1) (hc6 : c6 ≤ 1) (hc7 : c7 ≤ 1) (hc8 : c8 ≤ 1) :
    ∃ pt, decrypt s [c1, c2, c3, c4, c5, c6, c7, c8] = some pt ∧
      pt.length = 8 ∧ (∀ b ∈ pt, b ≤ 1) ∧
      encrypt s pt = some [c1, c2, c3, c4, c5, c6, c7, c8] := by
  obtain ⟨w1, w2, w3, w4, hFa, hw1, hw2, hw3, hw4⟩ :=
    feistel_wf hc4 hc8 hc5 hc7 hb1 hb2 hb3 hb4 hb5 hb6 hb7 hb8
  obtain ⟨x1, x2, x3, x4, hFb, hx1, hx2, hx3, hx4⟩ :=
    feistel_wf (xor_bit hc2 hw1) (xor_bit hc6 hw2) (xor_bit hc3 hw3) (xor_bit hc1 hw4)
      ha1 ha2 ha3 ha4 ha5 ha6 ha7 ha8
  have hFa' : feistel [c4, c8, c5, c7] s.K2 = some [w1, w2, w3, w4] := by rw [hK2]; exact hFa
  have hFb' : feistel [c2 ^^^ w1, c6 ^^^ w2, c3 ^^^ w3, c1 ^^^ w4] s.K1 =
      some [x1, x2, x3, x4] := by rw [hK1]; exact hFb
  have hdec := decrypt_eval s c1 c2 c3 c4 c5 c6 c7 c8 w1 w2 w3 w4 x1 x2 x3 x4 hFa' hFb'
  refine ⟨_, hdec, rfl, ?_, ?_⟩
  · intro b hb
    simp only [List.mem_cons, List.not_mem_nil, or_false] at hb
    rcases hb with rfl | rfl | rfl | rfl | rfl | rfl | rfl | rfl
    · exact xor_bit hc7 hx4
    · exact xor_bit hc4 hx1
    · exact xor_bit hc5 hx3
    · exact xor_bit hc2 hw1
    · exact xor_bit hc3 hw3
    · exact xor_bit hc8 hx2
    · exact xor_bit hc1 hw4
    · exact xor_bit hc6 hw2
  · have hF1 : feistel [c2 ^^^ w1, c6 ^^^ w2, c3 ^^^ w3, c1 ^^^ w4] s.K1 =
        some [x1, x2, x3, x4] := hFb'
    have hF2 : feistel [(c4 ^^^ x1) ^^^ x1, (c8 ^^^ x2) ^^^ x2, (c5 ^^^ x3) ^^^ x3,
        (c7 ^^^ x4) ^^^ x4] s.K2 = some [w1, w2, w3, w4] := by
      simp only [Nat.xor_cancel_right]
      exact hFa'
    have henc := encrypt_eval s (c7 ^^^ x4) (c4 ^^^ x1) (c5 ^^^ x3) (c2 ^^^ w1) (c3 ^^^ w3)
      (c8 ^^^ x2) (c1 ^^^ w4) (c6 ^^^ w2) x1 x2 x3 x4 w1 w2 w3 w4 hF1 hF2
    rw [henc]
    simp only [Nat.xor_cancel_right]

end SDES

namespace SDES

lemma wf_eight {b1 b2 b3 b4 b5 b6 b7 b8 : Nat}
    (h : ∀ b ∈ [b1, b2, b3, b4, b5, b6, b7, b8], b ≤ 1) :
    b1 ≤ 1 ∧ b2 ≤ 1 ∧ b3 ≤ 1 ∧ b4 ≤ 1 ∧ b5 ≤ 1 ∧ b6 ≤ 1 ∧ b7 ≤ 1 ∧ b8 ≤ 1 :=
  ⟨h _ (by simp), h _ (by simp), h _ (by simp), h _ (by simp),
   h _ (by simp), h _ (by simp), h _ (by simp), h _ (by simp)⟩

lemma make_wf {key : List Nat} (hlen : key.length = 10) (hwf : ∀ b ∈ key, b ≤ 1) :
    ∃ s : SDES, make key = some s ∧ s.key = key ∧
      s.K1.length = 8 ∧ (∀ b ∈ s.K1, b ≤ 1) ∧
      s.K2.length = 8 ∧ (∀ b ∈ s.K2, b ≤ 1) := by
  obtain ⟨k1, k2, k3, k4, k5, k6, k7, k8, k9, k10, rfl⟩ := list_ten hlen
  refine ⟨_, make_eval k1 k2 k3 k4 k5 k6 k7 k8 k9 k10, rfl, rfl, ?_, rfl, ?_⟩ <;>
  · intro b hb
    simp only [List.mem_cons, List.not_mem_nil, or_false] at hb
    rcases hb with rfl | rfl | rfl | rfl | rfl | rfl | rfl | rfl <;> exact hwf _ (by simp)

lemma encrypt_then_decrypt (s : SDES)
    (hK1len : s.K1.length = 8) (hK1wf : ∀ b ∈ s.K1, b ≤ 1)
    (hK2len : s.K2.length = 8) (hK2wf : ∀ b ∈ s.K2, b ≤ 1)
    {P : List Nat} (hp : P.length = 8) (hpwf : ∀ b ∈ P, b ≤ 1) :
    ∃ ct, encrypt s P = some ct ∧ ct.length = 8 ∧ (∀ b ∈ ct, b ≤ 1) ∧
      decrypt s ct = some P := by
  obtain ⟨a1, a2, a3, a4, a5, a6, a7, a8, hK1⟩ := list_eight hK1len
  obtain ⟨b1, b2, b3, b4, b5, b6, b7, b8, hK2⟩ := list_eight hK2len
  obtain ⟨p1, p2, p3, p4, p5, p6, p7, p8, rfl⟩ := list_eight hp
  rw [hK1] at hK1wf
  rw [hK2] at hK2wf
  obtain ⟨ha1, ha2, ha3, ha4, ha5, ha6, ha7, ha8⟩ := wf_eight hK1wf
  obtain ⟨hb1, hb2, hb3, hb4, hb5, hb6, hb7, hb8⟩ := wf_eight hK2wf
  obtain ⟨hp1, hp2, hp3, hp4, hp5, hp6, hp7, hp8⟩ := wf_eight hpwf
  exact enc_dec_core s a1 a2 a3 a4 a5 a6 a7 a8 b1 b2 b3 b4 b5 b6 b7 b8 hK1 hK2
    ha1 ha2 ha3 ha4 ha5 ha6 ha7 ha8 hb1 hb2 hb3 hb4 hb5 hb6 hb7 hb8
    p1 p2 p3 p4 p5 p6 p7 p8 hp1 hp2 hp3 hp4 hp5 hp6 hp7 hp8

lemma decrypt_then_encrypt (s : SDES)
    (hK1len : s.K1.length = 8) (hK1wf : ∀ b ∈ s.K1, b ≤ 1)
    (hK2len : s.K2.length = 8) (hK2wf : ∀ b ∈ s.K2, b ≤ 1)
    {C : List Nat} (hc : C.length = 8) (hcwf : ∀ b ∈ C, b ≤ 1) :
    ∃ pt, decrypt s C = some pt ∧ pt.length = 8 ∧ (∀ b ∈ pt, b ≤ 1) ∧
      encrypt s pt = some C := by
  obtain ⟨a1, a2, a3, a4, a5, a6, a7, a8, hK1⟩ := list_eight hK1len
  obtain ⟨b1, b2, b3, b4, b5, b6, b7, b8, hK2⟩ := list_eight hK2len
  obtain ⟨c1, c2, c3, c4, c5, c6, c7, c8, rfl⟩ := list_eight hc
  rw [hK1] at hK1wf
  rw [hK2] at hK2wf
  obtain ⟨ha1, ha2, ha3, ha4, ha5, ha6, ha7, ha8⟩ := wf_eight hK1wf
  obtain ⟨hb1, hb2, hb3, hb4, hb5, hb6, hb7, hb8⟩ := wf_eight hK2wf
  obtain ⟨hc1, hc2, hc3, hc4, hc5, hc6, hc7, hc8⟩ := wf_eight hcwf
  exact dec_enc_core s a1 a2 a3 a4 a5 a6 a7 a8 b1 b2 b3 b4 b5 b6 b7 b8 hK1 hK2
    ha1 ha2 ha3 ha4 ha5 ha6 ha7 ha8 hb1 hb2 hb3 hb4 hb5 hb6 hb7 hb8
    c1 c2 c3 c4 c5 c6 c7 c8 hc1 hc2 hc3 hc4 hc5 hc6 hc7 hc8

end SDES

namespace SDES

lemma pyGet_in (xs : List Nat) (t : Int) (h1 : 1 ≤ t) (h2 : t ≤ (xs.length : Int)) :
    pyGet xs (t - 1) = some (xs.getD (t - 1).toNat 0) := by
  unfold pyGet
  rw [if_pos (by omega)]
  have hlt : (t - 1).toNat < xs.length := by omega
  rw [List.getElem?_eq_getElem hlt, List.getD_eq_getElem _ _ hlt]

lemma pyGet_none {α : Type} (xs : List α) (i : Int)
    (h : (xs.length : Int) ≤ i ∨ i + xs.length < 0) : pyGet xs i = none := by
  unfold pyGet
  rcases h with h | h
  · rw [if_pos (by omega)]
    exact List.getElem?_eq_none (by omega)
  · rw [if_neg (by omega), if_neg (by omega)]

lemma permute_in_range (source : List Nat) (table : List Int)
    (h : ∀ t ∈ table, 1 ≤ t ∧ t ≤ (source.length : Int)) :
    permute source table = some (table.map (fun t => source.getD (t - 1).toNat 0)) := by
  induction table with
  | nil => rfl
  | cons a ts ih =>
    have ha := h a (List.mem_cons_self a ts)
    rw [permute, List.mapM_cons, pyGet_in source a ha.1 ha.2]
    rw [permute] at ih
    rw [ih (fun t ht => h t (List.mem_cons_of_mem a ht))]
    rfl

/-- Identity permutation table, the 1-based positions 1, 2, ..., n. -/
def idTable (n : Nat) : List Int := (List.range n).map (fun i : Nat => (i : Int) + 1)

/-- Reversing permutation table, the 1-based positions n, ..., 2, 1. -/
def revTable (n : Nat) : List Int := (idTable n).reverse

lemma map_getD_range (l : List Nat) :
    (List.range l.length).map (fun i => l.getD i 0) = l := by
  induction l with
  | nil => rfl
  | cons x xs ih =>
    have hc : ((fun i => (x :: xs).getD i 0) ∘ Nat.succ) = (fun i => xs.getD i 0) := by
      funext i
      rfl
    rw [List.length_cons, List.range_succ_eq_map, List.map_cons, List.map_map, hc, ih]
    rfl

lemma idTable_mem {n : Nat} {t : Int} (h : t ∈ idTable n) : 1 ≤ t ∧ t ≤ (n : Int) := by
  simp only [idTable, List.mem_map] at h
  obtain ⟨i, hi, rfl⟩ := h
  have := List.mem_range.mp hi
  omega

lemma idTable_comp (source : List Nat) :
    ((fun t : Int => source.getD (t - 1).toNat 0) ∘ fun i : Nat => (i : Int) + 1) =
      (fun i : Nat => source.getD i 0) := by
  funext i
  show source.getD ((i : Int) + 1 - 1).toNat 0 = source.getD i 0
  congr 1
  omega

lemma permute_idTable (source : List Nat) :
    permute source (idTable source.length) = some source := by
  rw [permute_in_range source _ (fun t ht => idTable_mem ht)]
  rw [idTable, List.map_map, idTable_comp, map_getD_range]

lemma permute_revTable (source : List Nat) :
    permute source (revTable source.length) = some source.reverse := by
  rw [revTable, permute_in_range source _
    (fun t ht => idTable_mem (List.mem_reverse.mp ht))]
  rw [List.map_reverse, idTable, List.map_map, idTable_comp, map_getD_range]

lemma permute_fail (source : List Nat) (table : List Int)
    (h : ∃ t ∈ table, (source.length : Int) < t ∨ t < 1 - (source.length : Int)) :
    permute source table = none := by
  induction table with
  | nil =>
    obtain ⟨t, htm, _⟩ := h
    exact absurd htm (List.not_mem_nil t)
  | cons a ts ih =>
    obtain ⟨t, htm, hout⟩ := h
    rw [permute, List.mapM_cons]
    rcases List.mem_cons.mp htm with rfl | htm'
    · rw [pyGet_none source (t - 1) (by omega)]
      rfl
    · cases hpg : pyGet source (a - 1) with
      | none => rfl
      | some b =>
        have hts := ih ⟨t, htm', hout⟩
        rw [permute] at hts
        rw [hts]
        rfl

lemma permute_neg_coerce (source : List Nat) (t : Int)
    (h1 : 1 - (source.length : Int) ≤ t) (h0 : t ≤ 0) :
    permute source [t] = some [source.getD ((source.length : Int) + t - 1).toNat 0] := by
  rw [permute]
  simp only [List.mapM_cons, List.mapM_nil]
  unfold pyGet
  rw [if_neg (by omega), if_pos (by omega)]
  have hidx : source.length - Int.toNat (-(t - 1)) =
      ((source.length : Int) + t - 1).toNat := by omega
  rw [hidx]
  have hlt : ((source.length : Int) + t - 1).toNat < source.length := by omega
  rw [List.getElem?_eq_getElem hlt, List.getD_eq_getElem _ _ hlt]
  rfl

end SDES

namespace SDES

/-- Reference two-round Feistel pipeline, written from the spec's words:
IP, round 1 with swap (new left is R0, new right is L0 XOR feistel(R0, K1)),
round 2 without swap (new left is R0 XOR feistel(L1, K2)), then IP_INV. -/
def encryptSpec (s : SDES) (plaintext : List Nat) : Option (List Nat) := do
  let ip ← permute plaintext IP
  let L0 := List.take 4 ip
  let R0 := List.drop 4 ip
  let F1 ← feistel R0 s.K1
  let L1 ← xorIdx L0 F1
  let F2 ← feistel L1 s.K2
  let newLeft ← xorIdx R0 F2
  permute (newLeft ++ L1) IP_INV

/-- C1: for every well-formed 10-bit key and 8-bit block, decrypting the
encryption of the block returns the block. -/
theorem claim_C1_roundtrip (key P : List Nat)
    (hklen : key.length = 10) (hkbit : ∀ b ∈ key, b = 0 ∨ b = 1)
    (hplen : P.length = 8) (hpbit : ∀ b ∈ P, b = 0 ∨ b = 1) :
    ∃ s ct, make key = some s ∧ encrypt s P = some ct ∧ decrypt s ct = some P := by
  have hk1 : ∀ b ∈ key, b ≤ 1 := fun b hb => by rcases hkbit b hb with rfl | rfl <;> decide
  have hp1 : ∀ b ∈ P, b ≤ 1 := fun b hb => by rcases hpbit b hb with rfl | rfl <;> decide
  obtain ⟨s, hs, _, h1l, h1w, h2l, h2w⟩ := make_wf hklen hk1
  obtain ⟨ct, henc, _, _, hdec⟩ := encrypt_then_decrypt s h1l h1w h2l h2w hplen hp1
  exact ⟨s, ct, hs, henc, hdec⟩

/-- Witness for C1 at the reference key and plaintext of the usage example. -/
theorem claim_C1_witness :
    ∃ s ct, make [1, 0, 1, 0, 0, 0, 0, 0, 1, 0] = some s ∧
      encrypt s [1, 1, 0, 1, 0, 1, 1, 1] = some ct ∧
      decrypt s ct = some [1, 1, 0, 1, 0, 1, 1, 1] :=
  claim_C1_roundtrip [1, 0, 1, 0, 0, 0, 0, 0, 1, 0] [1, 1, 0, 1, 0, 1, 1, 1]
    (by decide) (by decide) (by decide) (by decide)

/-- C2: the key schedule applies P10, rotates both halves by 1, feeds the
rotated halves to P8 for K1, then rotates the already-rotated halves by 2
more (a cumulative rotation of 3 from the P10 output) and feeds them to P8
for K2; for the concrete key 1000000000 the cumulative result differs from an
independent rotation of the original halves by 2. -/
theorem claim_C2_key_schedule (k1 k2 k3 k4 k5 k6 k7 k8 k9 k10 : Nat) :
    (∃ p, permute [k1, k2, k3, k4, k5, k6, k7, k8, k9, k10] P10 = some p ∧
      ∃ K1 K2,
        permute (left_shift (List.take 5 p) 1 ++ left_shift (List.drop 5 p) 1) P8 = some K1 ∧
        permute (left_shift (left_shift (List.take 5 p) 1) 2 ++
          left_shift (left_shift (List.drop 5 p) 1) 2) P8 = some K2 ∧
        generate_keys [k1, k2, k3, k4, k5, k6, k7, k8, k9, k10] = some (K1, K2) ∧
        left_shift (left_shift (List.take 5 p) 1) 2 = left_shift (List.take 5 p) 3 ∧
        left_shift (left_shift (List.drop 5 p) 1) 2 = left_shift (List.drop 5 p) 3) ∧
    generate_keys [1, 0, 0, 0, 0, 0, 0, 0, 0, 0] =
      some ([1, 0, 0, 0, 0, 0, 0, 0], [0, 0, 0, 0, 0, 0, 0, 1]) ∧
    permute (left_shift (List.take 5 [0, 0, 0, 0, 0, 0, 1, 0, 0, 0]) 2 ++
      left_shift (List.drop 5 [0, 0, 0, 0, 0, 0, 1, 0, 0, 0]) 2) P8 =
      some [0, 0, 0, 0, 0, 0, 1, 0] := by
  refine ⟨⟨_, rfl, _, _, rfl, rfl, rfl, rfl, rfl⟩, by decide, by decide⟩

/-- C3: the encrypt method (with its temp-variable swap dance) computes
exactly the two-round Feistel reference pipeline described by the spec. -/
theorem claim_C3_encrypt_feistel (s : SDES) (plaintext : List Nat) :
    encrypt s plaintext = encryptSpec s plaintext := rfl

/-- C4: feistel expands the half with EP (duplicating each of the 4 input
positions exactly twice), XORs with the subkey, splits, applies S0 and S1,
and permutes with P4. -/
theorem claim_C4_feistel (w x y z s1 s2 s3 s4 s5 s6 s7 s8 : Nat) :
    permute [w, x, y, z] EP = some [z, w, x, y, x, y, z, w] ∧
    feistel [w, x, y, z] [s1, s2, s3, s4, s5, s6, s7, s8] =
      (sbox [z ^^^ s1, w ^^^ s2, x ^^^ s3, y ^^^ s4] S0).bind (fun s0out =>
        (sbox [x ^^^ s5, y ^^^ s6, z ^^^ s7, w ^^^ s8] S1).bind (fun s1out =>
          permute (s0out ++ s1out) P4)) ∧
    EP = [4, 1, 2, 3, 2, 3, 4, 1] ∧
    EP.count 1 = 2 ∧ EP.count 2 = 2 ∧ EP.count 3 = 2 ∧ EP.count 4 = 2 :=
  ⟨rfl, rfl, rfl, by decide, by decide, by decide, by decide⟩

/-- C5: sbox reads the table at row 2*half[0] + half[3] and column
2*half[1] + half[2], both indices at most 3 for bit inputs, and returns the
2-bit binary rendering of the entry, so the output is two bits. -/
theorem claim_C5_sbox (a b c d : Nat)
    (ha : a = 0 ∨ a = 1) (hb : b = 0 ∨ b = 1) (hc : c = 0 ∨ c = 1) (hd : d = 0 ∨ d = 1)
    (box : List (List Nat)) (hbox : box = S0 ∨ box = S1) :
    2 * a + d ≤ 3 ∧ 2 * b + c ≤ 3 ∧
    sbox [a, b, c, d] box = some (pyBin2 ((box.getD (2 * a + d) []).getD (2 * b + c) 0)) ∧
    ∃ u v, sbox [a, b, c, d] box = some [u, v] ∧ (u = 0 ∨ u = 1) ∧ (v = 0 ∨ v = 1) := by
  rcases hbox with rfl | rfl <;> rcases ha with rfl | rfl <;> rcases hb with rfl | rfl <;>
    rcases hc with rfl | rfl <;> rcases hd with rfl | rfl <;>
    exact ⟨by decide, by decide, rfl, _, _, rfl, by decide, by decide⟩

/-- Witness for C5 at input 0110 on S0. -/
theorem claim_C5_witness :
    2 * 0 + 0 ≤ 3 ∧ 2 * 1 + 1 ≤ 3 ∧
    sbox [0, 1, 1, 0] S0 = some (pyBin2 ((S0.getD (2 * 0 + 0) []).getD (2 * 1 + 1) 0)) ∧
    ∃ u v, sbox [0, 1, 1, 0] S0 = some [u, v] ∧ (u = 0 ∨ u = 1) ∧ (v = 0 ∨ v = 1) :=
  claim_C5_sbox 0 1 1 0 (Or.inl rfl) (Or.inr rfl) (Or.inr rfl) (Or.inl rfl) S0 (Or.inl rfl)

end SDES

namespace SDES

/-- C6: permute on an in-range table returns, position by position, the
1-based lookups source[table[j] - 1]; on the identity table it returns the
input and on the reversing table it reverses the input. -/
theorem claim_C6_permute :
    (∀ (source : List Nat) (table : List Int),
      (∀ t ∈ table, 1 ≤ t ∧ t ≤ (source.length : Int)) →
      permute source table = some (table.map (fun t => source.getD (t - 1).toNat 0))) ∧
    (∀ source : List Nat, permute source (idTable source.length) = some source) ∧
    (∀ source : List Nat, permute source (revTable source.length) = some source.reverse) :=
  ⟨permute_in_range, permute_idTable, permute_revTable⟩

/-- Witness for C6 on the two-bit source 5,7 with table 2,1. -/
theorem claim_C6_witness :
    permute [5, 7] [2, 1] =
      some (([2, 1] : List Int).map (fun t => [5, 7].getD (t - 1).toNat 0)) :=
  claim_C6_permute.1 [5, 7] [2, 1] (by decide)

/-- C7 counterexample: the table entry 0 lies outside [1, 2] for the
two-bit source 0,1, yet permute does not fail: Python negative indexing
silently returns the last element. -/
theorem claim_C7_counterexample :
    permute [0, 1] [0] = some [1] ∧ permute [0, 1] [0] ≠ none :=
  ⟨rfl, by decide⟩

/-- C7 as amended: permute fails exactly on entries above the length or
below 1 - length; entries in [1 - length, 0] are silently coerced by
Python negative indexing to the element at position length + t - 1. -/
theorem claim_C7_amended :
    (∀ (source : List Nat) (table : List Int),
      (∃ t ∈ table, (source.length : Int) < t ∨ t < 1 - (source.length : Int)) →
      permute source table = none) ∧
    (∀ (source : List Nat) (t : Int), 1 - (source.length : Int) ≤ t → t ≤ 0 →
      permute source [t] = some [source.getD ((source.length : Int) + t - 1).toNat 0]) :=
  ⟨permute_fail, permute_neg_coerce⟩

/-- Witness for the amended C7: entry 3 and entry -5 fail on a two-bit
source, while entry 0 is coerced to the last element. -/
theorem claim_C7_witness :
    permute [0, 1] [3] = none ∧ permute [0, 1] [-5] = none ∧
    permute [0, 1] [0] =
      some [[0, 1].getD (((([0, 1] : List Nat).length : Int) + 0 - 1).toNat) 0] :=
  ⟨claim_C7_amended.1 [0, 1] [3] ⟨3, by decide, by decide⟩,
   claim_C7_amended.1 [0, 1] [-5] ⟨-5, by decide, by decide⟩,
   claim_C7_amended.2 [0, 1] 0 (by decide) (by decide)⟩

/-- C8: construction and the two cipher directions are deterministic
functions of the key and the input: two instances built from the same key
agree on both subkeys and on every encryption and decryption, and repeated
calls agree with themselves. -/
theorem claim_C8_determinism (key : List Nat) (s1 s2 : SDES)
    (h1 : make key = some s1) (h2 : make key = some s2) :
    s1.K1 = s2.K1 ∧ s1.K2 = s2.K2 ∧
    (∀ P, encrypt s1 P = encrypt s2 P) ∧
    (∀ C, decrypt s1 C = decrypt s2 C) ∧
    (∀ P, encrypt s1 P = encrypt s1 P) ∧ (∀ C, decrypt s1 C = decrypt s1 C) := by
  have hs : s1 = s2 := by
    rw [h1] at h2
    exact Option.some.inj h2
  subst hs
  exact ⟨rfl, rfl, fun _ => rfl, fun _ => rfl, fun _ => rfl, fun _ => rfl⟩

/-- Witness for C8: the reference key built twice. -/
theorem claim_C8_witness :
    (SDES.mk [1, 0, 1, 0, 0, 0, 0, 0, 1, 0] [1, 0, 1, 0, 0, 1, 0, 0] [0, 1, 0, 0, 0, 0, 1, 1]).K1 =
      (SDES.mk [1, 0, 1, 0, 0, 0, 0, 0, 1, 0] [1, 0, 1, 0, 0, 1, 0, 0] [0, 1, 0, 0, 0, 0, 1, 1]).K1 ∧
    (SDES.mk [1, 0, 1, 0, 0, 0, 0, 0, 1, 0] [1, 0, 1, 0, 0, 1, 0, 0] [0, 1, 0, 0, 0, 0, 1, 1]).K2 =
      (SDES.mk [1, 0, 1, 0, 0, 0, 0, 0, 1, 0] [1, 0, 1, 0, 0, 1, 0, 0] [0, 1, 0, 0, 0, 0, 1, 1]).K2 ∧
    (∀ P, encrypt (SDES.mk [1, 0, 1, 0, 0, 0, 0, 0, 1, 0] [1, 0, 1, 0, 0, 1, 0, 0] [0, 1, 0, 0, 0, 0, 1, 1]) P =
      encrypt (SDES.mk [1, 0, 1, 0, 0, 0, 0, 0, 1, 0] [1, 0, 1, 0, 0, 1, 0, 0] [0, 1, 0, 0, 0, 0, 1, 1]) P) ∧
    (∀ C, decrypt (SDES.mk [1, 0, 1, 0, 0, 0, 0, 0, 1, 0] [1, 0, 1, 0, 0, 1, 0, 0] [0, 1, 0, 0, 0, 0, 1, 1]) C =
      decrypt (SDES.mk [1, 0, 1, 0, 0, 0, 0, 0, 1, 0] [1, 0, 1, 0, 0, 1, 0, 0] [0, 1, 0, 0, 0, 0, 1, 1]) C) ∧
    (∀ P, encrypt (SDES.mk [1, 0, 1, 0, 0, 0, 0, 0, 1, 0] [1, 0, 1, 0, 0, 1, 0, 0] [0, 1, 0, 0, 0, 0, 1, 1]) P =
      encrypt (SDES.mk [1, 0, 1, 0, 0, 0, 0, 0, 1, 0] [1, 0, 1, 0, 0, 1, 0, 0] [0, 1, 0, 0, 0, 0, 1, 1]) P) ∧
    (∀ C, decrypt (SDES.mk [1, 0, 1, 0, 0, 0, 0, 0, 1, 0] [1, 0, 1, 0, 0, 1, 0, 0] [0, 1, 0, 0, 0, 0, 1, 1]) C =
      decrypt (SDES.mk [1, 0, 1, 0, 0, 0, 0, 0, 1, 0] [1, 0, 1, 0, 0, 1, 0, 0] [0, 1, 0, 0, 0, 0, 1, 1]) C) :=
  claim_C8_determinism [1, 0, 1, 0, 0, 0, 0, 0, 1, 0] _ _ rfl rfl

/-- C9: on well-formed input, construction, encrypt and decrypt all return
(no raised IndexError anywhere) and the cipher outputs have 8 bits. -/
theorem claim_C9_totality (key P : List Nat)
    (hklen : key.length = 10) (hkbit : ∀ b ∈ key, b = 0 ∨ b = 1)
    (hplen : P.length = 8) (hpbit : ∀ b ∈ P, b = 0 ∨ b = 1) :
    ∃ s : SDES, make key = some s ∧
      (∃ ct, encrypt s P = some ct ∧ ct.length = 8) ∧
      (∃ pt, decrypt s P = some pt ∧ pt.length = 8) := by
  have hk1 : ∀ b ∈ key, b ≤ 1 := fun b hb => by rcases hkbit b hb with rfl | rfl <;> decide
  have hp1 : ∀ b ∈ P, b ≤ 1 := fun b hb => by rcases hpbit b hb with rfl | rfl <;> decide
  obtain ⟨s, hs, _, h1l, h1w, h2l, h2w⟩ := make_wf hklen hk1
  obtain ⟨ct, henc, hctlen, _, _⟩ := encrypt_then_decrypt s h1l h1w h2l h2w hplen hp1
  obtain ⟨pt, hdec, hptlen, _, _⟩ := decrypt_then_encrypt s h1l h1w h2l h2w hplen hp1
  exact ⟨s, hs, ⟨ct, henc, hctlen⟩, ⟨pt, hdec, hptlen⟩⟩

/-- Witness for C9 at the reference key and plaintext. -/
theorem claim_C9_witness :
    ∃ s : SDES, make [1, 0, 1, 0, 0, 0, 0, 0, 1, 0] = some s ∧
      (∃ ct, encrypt s [1, 1, 0, 1, 0, 1, 1, 1] = some ct ∧ ct.length = 8) ∧
      (∃ pt, decrypt s [1, 1, 0, 1, 0, 1, 1, 1] = some pt ∧ pt.length = 8) :=
  claim_C9_totality [1, 0, 1, 0, 0, 0, 0, 0, 1, 0] [1, 1, 0, 1, 0, 1, 1, 1]
    (by decide) (by decide) (by decide) (by decide)

/-- C10: under a well-formed key, encrypting the decryption of any
well-formed 8-bit block returns the block, and encryption is injective on
well-formed blocks, so it is a bijection on them. -/
theorem claim_C10_left_inverse (key : List Nat)
    (hklen : key.length = 10) (hkbit : ∀ b ∈ key, b = 0 ∨ b = 1) :
    ∃ s : SDES, make key = some s ∧
      (∀ C, C.length = 8 → (∀ b ∈ C, b = 0 ∨ b = 1) →
        ∃ P, decrypt s C = some P ∧ P.length = 8 ∧ (∀ b ∈ P, b = 0 ∨ b = 1) ∧
          encrypt s P = some C) ∧
      (∀ P1 P2 C, P1.length = 8 → (∀ b ∈ P1, b = 0 ∨ b = 1) →
        P2.length = 8 → (∀ b ∈ P2, b = 0 ∨ b = 1) →
        encrypt s P1 = some C → encrypt s P2 = some C → P1 = P2) := by
  have hk1 : ∀ b ∈ key, b ≤ 1 := fun b hb => by rcases hkbit b hb with rfl | rfl <;> decide
  obtain ⟨s, hs, _, h1l, h1w, h2l, h2w⟩ := make_wf hklen hk1
  refine ⟨s, hs, ?_, ?_⟩
  · intro C hClen hCbit
    have hC1 : ∀ b ∈ C, b ≤ 1 := fun b hb => by rcases hCbit b hb with rfl | rfl <;> decide
    obtain ⟨pt, hdec, hlen, hwf, henc⟩ := decrypt_then_encrypt s h1l h1w h2l h2w hClen hC1
    exact ⟨pt, hdec, hlen, fun b hb => bit_cases (hwf b hb), henc⟩
  · intro P1 P2 C hl1 hb1 hl2 hb2 he1 he2
    have hP1 : ∀ b ∈ P1, b ≤ 1 := fun b hb => by rcases hb1 b hb with rfl | rfl <;> decide
    have hP2 : ∀ b ∈ P2, b ≤ 1 := fun b hb => by rcases hb2 b hb with rfl | rfl <;> decide
    obtain ⟨ct1, henc1, _, _, hdec1⟩ := encrypt_then_decrypt s h1l h1w h2l h2w hl1 hP1
    obtain ⟨ct2, henc2, _, _, hdec2⟩ := encrypt_then_decrypt s h1l h1w h2l h2w hl2 hP2
    rw [he1] at henc1
    rw [he2] at henc2
    rw [← Option.some.inj henc1] at hdec1
    rw [← Option.some.inj henc2] at hdec2
    rw [hdec1] at hdec2
    exact Option.some.inj hdec2

/-- Witness for C10 at the reference key. -/
theorem claim_C10_witness :
    ∃ s : SDES, make [1, 0, 1, 0, 0, 0, 0, 0, 1, 0] = some s ∧
      (∀ C, C.length = 8 → (∀ b ∈ C, b = 0 ∨ b = 1) →
        ∃ P, decrypt s C = some P ∧ P.length = 8 ∧ (∀ b ∈ P, b = 0 ∨ b = 1) ∧
          encrypt s P = some C) ∧
      (∀ P1 P2 C, P1.length = 8 → (∀ b ∈ P1, b = 0 ∨ b = 1) →
        P2.length = 8 → (∀ b ∈ P2, b = 0 ∨ b = 1) →
        encrypt s P1 = some C → encrypt s P2 = some C → P1 = P2) :=
  claim_C10_left_inverse [1, 0, 1, 0, 0, 0, 0, 0, 1, 0] (by decide) (by decide)

end SDES
